import Mathlib

/-!
Shallow embedding of the mesh message-relay core of `MeshNetworkModule`
(Kotlin, `com.meshage`): the controlled-flooding relay with hop-count TTL
and hash-based deduplication.

Modelling conventions:
* A Kotlin `String` is modelled as a `List Nat` of its UTF-16 code units
  (`Str` below).  All strings appearing in the protocol are built from
  code points below 0x10000, so one code unit per character.
* `String.hashCode` is the 32-bit Java hash `h := 31*h + c`; two hash
  values (signed `Int`s) are equal iff they are equal modulo 2^32, and
  `Int.toString` is injective, so the cache key
  `"$originalSenderId:$messageContent".hashCode().toString()`
  is modelled by the `Nat` value of the hash modulo 2^32.
* The mutable maps/sets of the module become explicit state
  (`RelayState`); event emission (`sendEvent`) and outbound payloads
  (`connectionsClient.sendPayload`) become result fields.
* The outcome of an asynchronous targeted transmission, and the failure
  message of its exception, are external inputs and are passed to
  `sendMessage` as parameters.
-/

/-- A Kotlin string as its list of UTF-16 code units. -/
abbrev Str : Type := List Nat

/-- `MESSAGE_SEPARATOR = "|||"` (three times code 124). -/
def SEP : Str := [124, 124, 124]

/-- `MAX_HOPS = 10`. -/
def MAX_HOPS : Int := 10

/-- `MESSAGE_CACHE_DURATION = 60000L` (milliseconds). -/
def MESSAGE_CACHE_DURATION : Int := 60000

/-- `startsWith p s`: `p` is a prefix of `s`. -/
def startsWith : Str → Str → Bool
  | [], _ => true
  | _ :: _, [] => false
  | p :: ps, c :: cs => p == c && startsWith ps cs

/-- Index of the first occurrence of `sep` in `s` (`none` if absent).
`sep` is always the nonempty `SEP` here. -/
def findSep (sep : Str) : Str → Option Nat
  | [] => none
  | c :: cs =>
    if startsWith sep (c :: cs) then some 0
    else (findSep sep cs).map (· + 1)

/-- Kotlin `s.split(sep, limit = n)` for a positive limit `n`: at most `n`
parts, scanning leftmost-first, the final part keeping the unsplit rest.
(The module only ever calls it with `limit = 4`; the `limit = 0` case of
Kotlin, "unlimited", never occurs and is given a dummy value.) -/
def splitLimit (sep : Str) : Nat → Str → List Str
  | 0, s => [s]
  | 1, s => [s]
  | n + 2, s =>
    match findSep sep s with
    | none => [s]
    | some i => s.take i :: splitLimit sep (n + 1) (s.drop (i + sep.length))

/-- Value of a nonempty all-ASCII-digit string, `none` otherwise. -/
def digitsVal : Str → Option Nat
  | [] => none
  | [c] => if 48 ≤ c ∧ c ≤ 57 then some (c - 48) else none
  | c :: rest =>
    if 48 ≤ c ∧ c ≤ 57 then
      match digitsVal rest with
      | some n =>
          some ((c - 48) * 10 ^ rest.length + n)
      | none => none
    else none

/-- Kotlin `String.toIntOrNull()`: optional sign, then digits, with the
32-bit `Int` range check (overflow yields `null`). -/
def toIntOrNull (s : Str) : Option Int :=
  match s with
  | [] => none
  | c :: rest =>
    if c = 45 then
      match digitsVal rest with
      | some n => if n ≤ 2147483648 then some (-(n : Int)) else none
      | none => none
    else if c = 43 then
      match digitsVal rest with
      | some n => if n ≤ 2147483647 then some (n : Int) else none
      | none => none
    else
      match digitsVal s with
      | some n => if n ≤ 2147483647 then some (n : Int) else none
      | none => none

/-- Decimal digits of a natural number, via structurally decreasing fuel
(`fuel ≥ n` suffices, and `natDigitsAux (n+1) n` is always exact). -/
def natDigitsAux : Nat → Nat → Str
  | 0, _ => []
  | fuel + 1, n =>
    if n < 10 then [48 + n]
    else natDigitsAux fuel (n / 10) ++ [48 + n % 10]

/-- Kotlin decimal rendering of an `Int` (string interpolation `"$x"`). -/
def intToStr (x : Int) : Str :=
  if x < 0 then 45 :: natDigitsAux (x.natAbs + 1) x.natAbs
  else natDigitsAux (x.natAbs + 1) x.natAbs

/-- Java/Kotlin `String.hashCode`, reduced modulo 2^32 (equality of the
reduced values is equality of the signed 32-bit hashes). -/
def hashCode (s : Str) : Nat :=
  s.foldl (fun h c => (h * 31 + c) % 4294967296) 0

/-- The deduplication fingerprint: the hash of
`"$originalSenderId:$messageContent"` (`:` is code 58). -/
def messageHash (originalSenderId messageContent : Str) : Nat :=
  hashCode (originalSenderId ++ [58] ++ messageContent)

/-- The wire envelope `"$origin|||$name|||$hop|||$content"`, the hop field
given as an already-rendered string. -/
def mkMessage (origin name hopStr content : Str) : Str :=
  origin ++ SEP ++ name ++ SEP ++ hopStr ++ SEP ++ content

/-- Lookup in the `seenMessages` map (hash → timestamp). -/
def lookupTs : List (Nat × Int) → Nat → Option Int
  | [], _ => none
  | p :: rest, k => if p.1 = k then some p.2 else lookupTs rest k

/-- Kotlin `MutableMap.containsKey`. -/
def containsKey (m : List (Nat × Int)) (k : Nat) : Bool :=
  (lookupTs m k).isSome

/-- Kotlin `map[k] = v`: replace in place if the key exists, else append. -/
def putTs : List (Nat × Int) → Nat → Int → List (Nat × Int)
  | [], k, v => [(k, v)]
  | p :: rest, k, v =>
    if p.1 = k then (k, v) :: rest else p :: putTs rest k v

/-- `cleanupOldMessages`: `seenMessages.entries.removeIf { currentTime -
entry.value > MESSAGE_CACHE_DURATION }` (an entry is kept iff it is not
strictly older than the window). -/
def cleanupOldMessages : List (Nat × Int) → Int → List (Nat × Int)
  | [], _ => []
  | p :: rest, currentTime =>
    if currentTime - p.2 > MESSAGE_CACHE_DURATION then
      cleanupOldMessages rest currentTime
    else p :: cleanupOldMessages rest currentTime

/-- The module's mutable protocol state. -/
structure RelayState where
  seenMessages : List (Nat × Int)
  connectedEndpoints : List Str
  localEndpointId : Str
deriving DecidableEq

/-- One `onMessageReceived` event (the fields put on the emitted map). -/
structure Delivery where
  message : Str
  fromAddress : Str
  senderName : Str
  hopCount : Int
  timestamp : Int
deriving DecidableEq

/-- Result of one `onPayloadReceived` invocation: the new state, the
`onMessageReceived` events emitted, and the payloads handed to
`sendPayload` as `(endpointId, bytes)` pairs. -/
structure RecvResult where
  state : RelayState
  delivered : List Delivery
  sent : List (Str × Str)
deriving DecidableEq

/-- `forwardMessageToOthers`: send to every connected endpoint except the
one the message arrived from. -/
def forwardMessageToOthers (connectedEndpoints : List Str)
    (message senderEndpointId : Str) : List (Str × Str) :=
  (connectedEndpoints.filter (fun e => e ≠ senderEndpointId)).map
    (fun e => (e, message))

/-- `onPayloadReceived` (BYTES case): parse, dedup-check, mark seen, clean
the cache, deliver, TTL-check, forward with hop count + 1. -/
def onPayloadReceived (st : RelayState) (endpointId rawMessage : Str)
    (currentTime : Int) : RecvResult :=
  match splitLimit SEP 4 rawMessage with
  | [originalSenderId, senderName, hopStr, messageContent] =>
    let hopCount : Int := (toIntOrNull hopStr).getD 0
    let mh : Nat := messageHash originalSenderId messageContent
    if containsKey st.seenMessages mh then
      { state := st, delivered := [], sent := [] }
    else
      let seen1 := putTs st.seenMessages mh currentTime
      let seen2 := cleanupOldMessages seen1 currentTime
      let d : Delivery :=
        { message := messageContent, fromAddress := originalSenderId,
          senderName := senderName, hopCount := hopCount,
          timestamp := currentTime }
      if hopCount ≥ MAX_HOPS then
        { state := { st with seenMessages := seen2 }, delivered := [d],
          sent := [] }
      else
        let updatedMessage :=
          mkMessage originalSenderId senderName (intToStr (hopCount + 1))
            messageContent
        { state := { st with seenMessages := seen2 }, delivered := [d],
          sent := forwardMessageToOthers st.connectedEndpoints
            updatedMessage endpointId }
  | _ => { state := st, delivered := [], sent := [] }

/-- `"local-$t"`: the lazily assigned local endpoint id. -/
def localIdFor (t : Int) : Str :=
  [108, 111, 99, 97, 108, 45] ++ intToStr t

/-- The `"No connected peers"` error string. -/
def noPeersMsg : Str :=
  [78, 111, 32, 99, 111, 110, 110, 101, 99, 116, 101, 100, 32,
   112, 101, 101, 114, 115]

/-- Result of one `sendMessage` invocation: new state, payloads handed to
`sendPayload`, whether `onMessageSent` fired, and the `error` field of an
`onMessageError` event if one fired. -/
structure SendResult where
  state : RelayState
  sent : List (Str × Str)
  sentEvent : Bool
  errorEvent : Option Str
deriving DecidableEq

/-- `sendMessage`: build the hop-0 envelope, mark it seen *before* any
transmission, then either a targeted send (whose asynchronous outcome
`transmitOk` and failure message `failMsg` come from the link layer) or a
broadcast, which errors with `"No connected peers"` on an empty
connected set. -/
def sendMessage (st : RelayState) (message senderName : Str)
    (targetAddress : Option Str) (now : Int) (transmitOk : Bool)
    (failMsg : Str) : SendResult :=
  let lid := if st.localEndpointId = [] then localIdFor now
    else st.localEndpointId
  let formatted := mkMessage lid senderName (intToStr 0) message
  let mh := messageHash lid message
  let st1 : RelayState :=
    { st with localEndpointId := lid,
              seenMessages := putTs st.seenMessages mh now }
  match targetAddress with
  | some target =>
    if transmitOk then
      { state := st1, sent := [(target, formatted)], sentEvent := true,
        errorEvent := none }
    else
      { state := st1, sent := [(target, formatted)], sentEvent := false,
        errorEvent := some failMsg }
  | none =>
    if st1.connectedEndpoints = [] then
      { state := st1, sent := [], sentEvent := false,
        errorEvent := some noPeersMsg }
    else
      { state := st1,
        sent := st1.connectedEndpoints.map (fun e => (e, formatted)),
        sentEvent := true, errorEvent := none }

/-- One inbound payload with its arrival link and arrival time. -/
structure Inbound where
  endpointId : Str
  raw : Str
  time : Int
deriving DecidableEq

/-- Sequential processing of a list of inbound payloads, collecting every
delivery and every outbound payload. -/
def processAll (st : RelayState) :
    List Inbound → RelayState × List Delivery × List (Str × Str)
  | [] => (st, [], [])
  | i :: rest =>
    let r := onPayloadReceived st i.endpointId i.raw i.time
    let rr := processAll r.state rest
    (rr.1, r.delivered ++ rr.2.1, r.sent ++ rr.2.2)

/-! ### Well-formed fields and the shape of `splitLimit` on envelopes -/

/-- A string is a good envelope field when the first occurrence of the
separator in `a ++ SEP` is the appended one: `a` neither contains `|||`
nor ends in `|` or `||`.  This is exactly what makes the wire format
parse back into the original fields. -/
def goodField (a : Str) : Prop :=
  findSep SEP (a ++ SEP) = some a.length

instance decGoodField (a : Str) : Decidable (goodField a) :=
  inferInstanceAs (Decidable (findSep SEP (a ++ SEP) = some a.length))

theorem startsWith_append_self (s t : Str) : startsWith s (s ++ t) = true := by
  induction s with
  | nil => rfl
  | cons c cs ih => simp [startsWith, ih]

theorem startsWith_false_append (p s t : Str) (hlen : p.length ≤ s.length)
    (h : startsWith p s = false) : startsWith p (s ++ t) = false := by
  induction p generalizing s with
  | nil => simp [startsWith] at h
  | cons c cs ih =>
    cases s with
    | nil => simp at hlen
    | cons b bs =>
      simp only [startsWith, Bool.and_eq_false_iff] at h
      rcases h with h | h
      · simp [startsWith, h]
      · simp only [List.cons_append, startsWith, Bool.and_eq_false_iff]
        right
        exact ih bs (by simpa using hlen) h

theorem findSep_cons (x : Nat) (t : Str) :
    findSep SEP (x :: t)
      = if startsWith SEP (x :: t) then some 0
        else (findSep SEP t).map (· + 1) := rfl

theorem findSep_append_of_goodField (a : Str) (h : goodField a) (rest : Str) :
    findSep SEP (a ++ SEP ++ rest) = some a.length := by
  induction a with
  | nil =>
    show findSep SEP ([] ++ SEP ++ rest) = some 0
    simp [SEP, findSep, startsWith]
  | cons c cs ih =>
    unfold goodField at h
    have e2 : (c :: cs) ++ SEP = c :: (cs ++ SEP) := by simp
    rw [e2, findSep_cons] at h
    have e1 : (c :: cs) ++ SEP ++ rest = c :: (cs ++ SEP ++ rest) := by simp
    rw [e1, findSep_cons]
    by_cases hb : startsWith SEP (c :: (cs ++ SEP)) = true
    · rw [if_pos hb] at h
      simp only [Option.some.injEq, List.length_cons] at h
      omega
    · rw [if_neg hb] at h
      have hgood : findSep SEP (cs ++ SEP) = some cs.length := by
        rcases hv : findSep SEP (cs ++ SEP) with _ | k
        · rw [hv] at h; simp at h
        · rw [hv] at h
          simp at h
          rw [h]
      have hbf : startsWith SEP (c :: (cs ++ SEP)) = false := by
        simpa using hb
      have hb2 : startsWith SEP (c :: (cs ++ SEP ++ rest)) = false := by
        have he : c :: (cs ++ SEP ++ rest) = (c :: (cs ++ SEP)) ++ rest := by simp
        rw [he]
        exact startsWith_false_append SEP (c :: (cs ++ SEP)) rest
          (by simp [SEP]) hbf
      rw [hb2]
      simp only [Bool.false_eq_true, if_false]
      rw [ih hgood]
      simp

theorem splitLimit_eq_some (sep s : Str) (n i : Nat)
    (h : findSep sep s = some i) :
    splitLimit sep (n + 2) s
      = s.take i :: splitLimit sep (n + 1) (s.drop (i + sep.length)) := by
  show (match findSep sep s with
    | none => [s]
    | some i => s.take i :: splitLimit sep (n + 1) (s.drop (i + sep.length)))
      = s.take i :: splitLimit sep (n + 1) (s.drop (i + sep.length))
  rw [h]

theorem split2_field (c d : Str) (hc : goodField c) :
    splitLimit SEP 2 (c ++ SEP ++ d) = [c, d] := by
  have hf : findSep SEP (c ++ SEP ++ d) = some c.length :=
    findSep_append_of_goodField c hc d
  have h1 : (c ++ SEP ++ d).take c.length = c := by
    rw [List.append_assoc]
    exact List.take_left c (SEP ++ d)
  have h2 : (c ++ SEP ++ d).drop (c.length + SEP.length) = d := by
    rw [show c.length + SEP.length = (c ++ SEP).length by simp]
    rw [List.append_assoc, ← List.append_assoc]
    exact List.drop_left (c ++ SEP) d
  calc splitLimit SEP 2 (c ++ SEP ++ d)
      = splitLimit SEP (0 + 2) (c ++ SEP ++ d) := rfl
    _ = (c ++ SEP ++ d).take c.length
          :: splitLimit SEP (0 + 1)
            ((c ++ SEP ++ d).drop (c.length + SEP.length)) :=
        splitLimit_eq_some SEP (c ++ SEP ++ d) 0 c.length hf
    _ = [c, d] := by rw [h1, h2]; rfl

theorem split3_fields (b c d : Str) (hb : goodField b) (hc : goodField c) :
    splitLimit SEP 3 (b ++ SEP ++ (c ++ SEP ++ d)) = [b, c, d] := by
  have hf : findSep SEP (b ++ SEP ++ (c ++ SEP ++ d)) = some b.length :=
    findSep_append_of_goodField b hb (c ++ SEP ++ d)
  have h1 : (b ++ SEP ++ (c ++ SEP ++ d)).take b.length = b := by
    rw [List.append_assoc]
    exact List.take_left b (SEP ++ (c ++ SEP ++ d))
  have h2 : (b ++ SEP ++ (c ++ SEP ++ d)).drop (b.length + SEP.length)
      = c ++ SEP ++ d := by
    rw [show b.length + SEP.length = (b ++ SEP).length by simp]
    rw [List.append_assoc, ← List.append_assoc]
    exact List.drop_left (b ++ SEP) (c ++ SEP ++ d)
  calc splitLimit SEP 3 (b ++ SEP ++ (c ++ SEP ++ d))
      = splitLimit SEP (1 + 2) (b ++ SEP ++ (c ++ SEP ++ d)) := rfl
    _ = (b ++ SEP ++ (c ++ SEP ++ d)).take b.length
          :: splitLimit SEP (1 + 1)
            ((b ++ SEP ++ (c ++ SEP ++ d)).drop (b.length + SEP.length)) :=
        splitLimit_eq_some SEP (b ++ SEP ++ (c ++ SEP ++ d)) 1 b.length hf
    _ = [b, c, d] := by
        rw [h1, h2]
        rw [show (1 + 1 : Nat) = 2 from rfl, split2_field c d hc]

theorem mkMessage_assoc (a b c d : Str) :
    mkMessage a b c d = a ++ SEP ++ (b ++ SEP ++ (c ++ SEP ++ d)) := by
  unfold mkMessage
  simp [List.append_assoc]

theorem split4_mkMessage (a b c d : Str) (ha : goodField a)
    (hb : goodField b) (hc : goodField c) :
    splitLimit SEP 4 (mkMessage a b c d) = [a, b, c, d] := by
  have hf : findSep SEP (a ++ SEP ++ (b ++ SEP ++ (c ++ SEP ++ d)))
      = some a.length :=
    findSep_append_of_goodField a ha (b ++ SEP ++ (c ++ SEP ++ d))
  have h1 : (a ++ SEP ++ (b ++ SEP ++ (c ++ SEP ++ d))).take a.length = a := by
    rw [List.append_assoc]
    exact List.take_left a (SEP ++ (b ++ SEP ++ (c ++ SEP ++ d)))
  have h2 : (a ++ SEP ++ (b ++ SEP ++ (c ++ SEP ++ d))).drop
      (a.length + SEP.length) = b ++ SEP ++ (c ++ SEP ++ d) := by
    rw [show a.length + SEP.length = (a ++ SEP).length by simp]
    rw [List.append_assoc, ← List.append_assoc]
    exact List.drop_left (a ++ SEP) (b ++ SEP ++ (c ++ SEP ++ d))
  rw [mkMessage_assoc]
  calc splitLimit SEP 4 (a ++ SEP ++ (b ++ SEP ++ (c ++ SEP ++ d)))
      = splitLimit SEP (2 + 2) (a ++ SEP ++ (b ++ SEP ++ (c ++ SEP ++ d))) := rfl
    _ = (a ++ SEP ++ (b ++ SEP ++ (c ++ SEP ++ d))).take a.length
          :: splitLimit SEP (2 + 1)
            ((a ++ SEP ++ (b ++ SEP ++ (c ++ SEP ++ d))).drop
              (a.length + SEP.length)) :=
        splitLimit_eq_some SEP _ 2 a.length hf
    _ = [a, b, c, d] := by
        rw [h1, h2]
        rw [show (2 + 1 : Nat) = 3 from rfl, split3_fields b c d hb hc]

theorem goodField_of_no_pipe (a : Str) (h : ∀ x ∈ a, x ≠ 124) :
    goodField a := by
  induction a with
  | nil =>
    show findSep SEP ([] ++ SEP) = some 0
    simp [SEP, findSep, startsWith]
  | cons c cs ih =>
    have hc : c ≠ 124 := h c (by simp)
    have hcs : goodField cs := ih (fun x hx => h x (by simp [hx]))
    unfold goodField at hcs ⊢
    have e2 : (c :: cs) ++ SEP = c :: (cs ++ SEP) := by simp
    rw [e2, findSep_cons]
    have hsw : startsWith SEP (c :: (cs ++ SEP)) = false := by
      show startsWith (124 :: [124, 124]) (c :: (cs ++ SEP)) = false
      simp only [startsWith, Bool.and_eq_false_iff]
      left
      simpa using fun hcc => hc hcc.symm
    rw [hsw]
    simp only [Bool.false_eq_true, if_false, hcs]
    simp

theorem natDigitsAux_digits (fuel n : Nat) :
    ∀ x ∈ natDigitsAux fuel n, 48 ≤ x ∧ x ≤ 57 := by
  induction fuel generalizing n with
  | zero => simp [natDigitsAux]
  | succ fuel ih =>
    intro x hx
    unfold natDigitsAux at hx
    by_cases hlt : n < 10
    · rw [if_pos hlt] at hx
      simp at hx
      omega
    · rw [if_neg hlt] at hx
      rcases List.mem_append.mp hx with hx | hx
      · exact ih (n / 10) x hx
      · simp at hx
        have : n % 10 < 10 := Nat.mod_lt n (by omega)
        omega

theorem intToStr_no_pipe (x : Int) : ∀ c ∈ intToStr x, c ≠ 124 := by
  intro c hc
  unfold intToStr at hc
  by_cases hneg : x < 0
  · rw [if_pos hneg] at hc
    rcases List.mem_cons.mp hc with h | h
    · omega
    · have := natDigitsAux_digits (x.natAbs + 1) x.natAbs c h
      omega
  · rw [if_neg hneg] at hc
    have := natDigitsAux_digits (x.natAbs + 1) x.natAbs c hc
    omega

theorem goodField_intToStr (x : Int) : goodField (intToStr x) :=
  goodField_of_no_pipe (intToStr x) (intToStr_no_pipe x)

/-! ### Lemmas about the seen-message cache -/

theorem lookupTs_putTs_self (m : List (Nat × Int)) (k : Nat) (v : Int) :
    lookupTs (putTs m k v) k = some v := by
  induction m with
  | nil => simp [putTs, lookupTs]
  | cons p rest ih =>
    unfold putTs
    by_cases hp : p.1 = k
    · rw [if_pos hp]
      simp [lookupTs]
    · rw [if_neg hp]
      unfold lookupTs
      rw [if_neg hp]
      exact ih

theorem lookupTs_putTs_ne (m : List (Nat × Int)) (k k' : Nat) (v : Int)
    (h : k' ≠ k) : lookupTs (putTs m k v) k' = lookupTs m k' := by
  induction m with
  | nil =>
    show lookupTs [(k, v)] k' = lookupTs [] k'
    unfold lookupTs
    rw [if_neg (fun hh => h hh.symm)]
    rfl
  | cons p rest ih =>
    unfold putTs
    by_cases hp : p.1 = k
    · rw [if_pos hp]
      unfold lookupTs
      have hk : ¬ (k = k') := fun hh => h hh.symm
      rw [if_neg hk]
      have hpk : ¬ (p.1 = k') := by rw [hp]; exact hk
      rw [if_neg hpk]
    · rw [if_neg hp]
      unfold lookupTs
      by_cases hq : p.1 = k'
      · rw [if_pos hq, if_pos hq]
      · rw [if_neg hq, if_neg hq]
        exact ih

theorem lookupTs_cleanup_keep (m : List (Nat × Int)) (k : Nat) (ts t : Int)
    (h : lookupTs m k = some ts) (hin : t - ts ≤ MESSAGE_CACHE_DURATION) :
    lookupTs (cleanupOldMessages m t) k = some ts := by
  induction m with
  | nil => simp [lookupTs] at h
  | cons p rest ih =>
    unfold lookupTs at h
    unfold cleanupOldMessages
    by_cases hp : p.1 = k
    · rw [if_pos hp] at h
      have hv : p.2 = ts := by injection h
      rw [if_neg (by omega : ¬ (t - p.2 > MESSAGE_CACHE_DURATION))]
      unfold lookupTs
      rw [if_pos hp, hv]
    · rw [if_neg hp] at h
      by_cases hdrop : t - p.2 > MESSAGE_CACHE_DURATION
      · rw [if_pos hdrop]
        exact ih h
      · rw [if_neg hdrop]
        unfold lookupTs
        rw [if_neg hp]
        exact ih h

theorem lookupTs_cleanup_none (m : List (Nat × Int)) (k : Nat) (t : Int)
    (h : lookupTs m k = none) :
    lookupTs (cleanupOldMessages m t) k = none := by
  induction m with
  | nil => simp [cleanupOldMessages, lookupTs]
  | cons p rest ih =>
    unfold lookupTs at h
    by_cases hp : p.1 = k
    · rw [if_pos hp] at h
      exact absurd h (by simp)
    · rw [if_neg hp] at h
      unfold cleanupOldMessages
      by_cases hdrop : t - p.2 > MESSAGE_CACHE_DURATION
      · rw [if_pos hdrop]
        exact ih h
      · rw [if_neg hdrop]
        unfold lookupTs
        rw [if_neg hp]
        exact ih h

/-- The `seenMessages` map never holds two entries for one key (true of
every reachable state; `putTs` and `cleanupOldMessages` preserve it). -/
def keysNodup (m : List (Nat × Int)) : Prop :=
  (m.map Prod.fst).Nodup

theorem lookupTs_eq_none_of_no_key (m : List (Nat × Int)) (k : Nat)
    (h : ∀ p ∈ m, p.1 ≠ k) : lookupTs m k = none := by
  induction m with
  | nil => rfl
  | cons p rest ih =>
    unfold lookupTs
    rw [if_neg (h p (by simp))]
    exact ih (fun q hq => h q (by simp [hq]))

theorem lookupTs_cleanup_sub (m : List (Nat × Int)) (k : Nat) (ts t : Int)
    (hn : keysNodup m)
    (h : lookupTs (cleanupOldMessages m t) k = some ts) :
    lookupTs m k = some ts := by
  induction m with
  | nil => simp [cleanupOldMessages, lookupTs] at h
  | cons p rest ih =>
    have hn12 : p.1 ∉ rest.map Prod.fst ∧ (rest.map Prod.fst).Nodup := by
      unfold keysNodup at hn
      simpa [List.nodup_cons] using hn
    have hn2 : keysNodup rest := hn12.2
    unfold cleanupOldMessages at h
    unfold lookupTs
    by_cases hdrop : t - p.2 > MESSAGE_CACHE_DURATION
    · rw [if_pos hdrop] at h
      by_cases hp : p.1 = k
      · have hnone : lookupTs rest k = none := by
          apply lookupTs_eq_none_of_no_key
          intro q hq
          intro hqk
          exact hn12.1 (by
            rw [hp, ← hqk]
            exact List.mem_map.mpr ⟨q, hq, rfl⟩)
        rw [lookupTs_cleanup_none rest k t hnone] at h
        exact absurd h (by simp)
      · rw [if_neg hp]
        exact ih hn2 h
    · rw [if_neg hdrop] at h
      unfold lookupTs at h
      by_cases hp : p.1 = k
      · rw [if_pos hp] at h
        rw [if_pos hp]
        exact h
      · rw [if_neg hp] at h
        rw [if_neg hp]
        exact ih hn2 h

/-! ### Characterizations of a single `onPayloadReceived` step -/

theorem recv_not4 (st : RelayState) (e raw : Str) (t : Int)
    (h : (splitLimit SEP 4 raw).length ≠ 4) :
    onPayloadReceived st e raw t = ⟨st, [], []⟩ := by
  unfold onPayloadReceived
  generalize hsp : splitLimit SEP 4 raw = parts at h ⊢
  match parts with
  | [] => rfl
  | [a] => rfl
  | [a, b] => rfl
  | [a, b, c] => rfl
  | [a, b, c, d] => simp at h
  | a :: b :: c :: d :: x :: l => rfl

theorem recv_dup (st : RelayState) (e raw : Str) (t : Int) (o n hs c : Str)
    (hsp : splitLimit SEP 4 raw = [o, n, hs, c])
    (hseen : containsKey st.seenMessages (messageHash o c) = true) :
    onPayloadReceived st e raw t = ⟨st, [], []⟩ := by
  unfold onPayloadReceived
  rw [hsp]
  simp only [hseen, if_true]

theorem recv_fresh (st : RelayState) (e raw : Str) (t : Int) (o n hs c : Str)
    (hsp : splitLimit SEP 4 raw = [o, n, hs, c])
    (hnew : containsKey st.seenMessages (messageHash o c) = false) :
    (onPayloadReceived st e raw t).delivered
        = [⟨c, o, n, (toIntOrNull hs).getD 0, t⟩]
      ∧ (onPayloadReceived st e raw t).state.seenMessages
        = cleanupOldMessages (putTs st.seenMessages (messageHash o c) t) t
      ∧ (onPayloadReceived st e raw t).state.connectedEndpoints
        = st.connectedEndpoints
      ∧ (onPayloadReceived st e raw t).state.localEndpointId
        = st.localEndpointId
      ∧ ((toIntOrNull hs).getD 0 ≥ MAX_HOPS
          → (onPayloadReceived st e raw t).sent = [])
      ∧ (¬ (toIntOrNull hs).getD 0 ≥ MAX_HOPS
          → (onPayloadReceived st e raw t).sent
            = forwardMessageToOthers st.connectedEndpoints
                (mkMessage o n (intToStr ((toIntOrNull hs).getD 0 + 1)) c) e) := by
  unfold onPayloadReceived
  rw [hsp]
  simp only [hnew, Bool.false_eq_true, if_false]
  by_cases httl : (toIntOrNull hs).getD 0 ≥ MAX_HOPS
  · simp [httl]
  · simp [httl]

theorem recv_links_id (st : RelayState) (e raw : Str) (t : Int) :
    (onPayloadReceived st e raw t).state.connectedEndpoints
        = st.connectedEndpoints
      ∧ (onPayloadReceived st e raw t).state.localEndpointId
        = st.localEndpointId := by
  by_cases h4 : (splitLimit SEP 4 raw).length = 4
  · match hsp : splitLimit SEP 4 raw with
    | [o, n, hs, c] =>
      by_cases hseen : containsKey st.seenMessages (messageHash o c) = true
      · rw [recv_dup st e raw t o n hs c hsp hseen]
        exact ⟨rfl, rfl⟩
      · have hf := recv_fresh st e raw t o n hs c hsp
          (by simpa using hseen)
        exact ⟨hf.2.2.1, hf.2.2.2.1⟩
    | [] => rw [hsp] at h4; simp at h4
    | [a] => rw [hsp] at h4; simp at h4
    | [a, b] => rw [hsp] at h4; simp at h4
    | [a, b, c] => rw [hsp] at h4; simp at h4
    | a :: b :: c :: d :: x :: l => rw [hsp] at h4; simp at h4
  · rw [recv_not4 st e raw t h4]
    exact ⟨rfl, rfl⟩

theorem recv_hash_kept (st : RelayState) (e raw : Str) (t : Int) (k : Nat)
    (ts : Int) (hk : lookupTs st.seenMessages k = some ts)
    (hfresh : t - ts ≤ MESSAGE_CACHE_DURATION) :
    lookupTs (onPayloadReceived st e raw t).state.seenMessages k = some ts := by
  by_cases h4 : (splitLimit SEP 4 raw).length = 4
  · match hsp : splitLimit SEP 4 raw with
    | [o, n, hs, c] =>
      by_cases hseen : containsKey st.seenMessages (messageHash o c) = true
      · rw [recv_dup st e raw t o n hs c hsp hseen]
        exact hk
      · have hne : k ≠ messageHash o c := by
          intro hkk
          rw [hkk] at hk
          unfold containsKey at hseen
          rw [hk] at hseen
          simp at hseen
        have hf := recv_fresh st e raw t o n hs c hsp (by simpa using hseen)
        rw [hf.2.1]
        exact lookupTs_cleanup_keep _ k ts t
          (by rw [lookupTs_putTs_ne _ _ _ _ hne]; exact hk) hfresh
    | [] => rw [hsp] at h4; simp at h4
    | [a] => rw [hsp] at h4; simp at h4
    | [a, b] => rw [hsp] at h4; simp at h4
    | [a, b, c] => rw [hsp] at h4; simp at h4
    | a :: b :: c :: d :: x :: l => rw [hsp] at h4; simp at h4
  · rw [recv_not4 st e raw t h4]
    exact hk

theorem recv_hash_absent (st : RelayState) (e raw : Str) (t : Int) (k : Nat)
    (hk : lookupTs st.seenMessages k = none)
    (hne : ∀ o n hs c, splitLimit SEP 4 raw = [o, n, hs, c]
      → messageHash o c ≠ k) :
    lookupTs (onPayloadReceived st e raw t).state.seenMessages k = none := by
  by_cases h4 : (splitLimit SEP 4 raw).length = 4
  · match hsp : splitLimit SEP 4 raw with
    | [o, n, hs, c] =>
      by_cases hseen : containsKey st.seenMessages (messageHash o c) = true
      · rw [recv_dup st e raw t o n hs c hsp hseen]
        exact hk
      · have hf := recv_fresh st e raw t o n hs c hsp (by simpa using hseen)
        rw [hf.2.1]
        apply lookupTs_cleanup_none
        rw [lookupTs_putTs_ne _ _ _ _ (fun hkk => hne o n hs c hsp hkk.symm)]
        exact hk
    | [] => rw [hsp] at h4; simp at h4
    | [a] => rw [hsp] at h4; simp at h4
    | [a, b] => rw [hsp] at h4; simp at h4
    | [a, b, c] => rw [hsp] at h4; simp at h4
    | a :: b :: c :: d :: x :: l => rw [hsp] at h4; simp at h4
  · rw [recv_not4 st e raw t h4]
    exact hk

theorem recv_delivered_decode (st : RelayState) (e raw : Str) (t : Int)
    (d : Delivery) (hd : d ∈ (onPayloadReceived st e raw t).delivered) :
    ∃ o n hs c, splitLimit SEP 4 raw = [o, n, hs, c]
      ∧ d.fromAddress = o ∧ d.message = c := by
  by_cases h4 : (splitLimit SEP 4 raw).length = 4
  · match hsp : splitLimit SEP 4 raw with
    | [o, n, hs, c] =>
      by_cases hseen : containsKey st.seenMessages (messageHash o c) = true
      · rw [recv_dup st e raw t o n hs c hsp hseen] at hd
        simp at hd
      · have hf := recv_fresh st e raw t o n hs c hsp (by simpa using hseen)
        rw [hf.1] at hd
        simp at hd
        exact ⟨o, n, hs, c, rfl, by rw [hd], by rw [hd]⟩
    | [] => rw [hsp] at h4; simp at h4
    | [a] => rw [hsp] at h4; simp at h4
    | [a, b] => rw [hsp] at h4; simp at h4
    | [a, b, c] => rw [hsp] at h4; simp at h4
    | a :: b :: c :: d2 :: x :: l => rw [hsp] at h4; simp at h4
  · rw [recv_not4 st e raw t h4] at hd
    simp at hd

/-! ### Counting deliveries of one `(origin, content)` pair over a trace -/

/-- Number of `onMessageReceived` events carrying the given origin and
content. -/
def pairCount (o c : Str) (dels : List Delivery) : Nat :=
  (dels.filter (fun d => d.fromAddress == o && d.message == c)).length

/-- Does this inbound payload parse into an envelope with the given
origin and content? -/
def isPairArrival (o c : Str) (i : Inbound) : Bool :=
  match splitLimit SEP 4 i.raw with
  | [o2, _, _, c2] => o2 == o && c2 == c
  | _ => false

/-- The dedup fingerprint an inbound payload would be given (none when
malformed). -/
def arrivalHash (i : Inbound) : Option Nat :=
  match splitLimit SEP 4 i.raw with
  | [o2, _, _, c2] => some (messageHash o2 c2)
  | _ => none

theorem isPairArrival_eq (o c : Str) (i : Inbound) (o2 n hs c2 : Str)
    (hsp : splitLimit SEP 4 i.raw = [o2, n, hs, c2]) :
    isPairArrival o c i = (o2 == o && c2 == c) := by
  unfold isPairArrival
  rw [hsp]

theorem arrivalHash_eq (i : Inbound) (o2 n hs c2 : Str)
    (hsp : splitLimit SEP 4 i.raw = [o2, n, hs, c2]) :
    arrivalHash i = some (messageHash o2 c2) := by
  unfold arrivalHash
  rw [hsp]

theorem isPairArrival_elim (o c : Str) (i : Inbound)
    (h : isPairArrival o c i = true) :
    ∃ n hs, splitLimit SEP 4 i.raw = [o, n, hs, c] := by
  unfold isPairArrival at h
  match hsp : splitLimit SEP 4 i.raw with
  | [o2, n, hs, c2] =>
    rw [hsp] at h
    simp at h
    exact ⟨n, hs, by rw [h.1, h.2]⟩
  | [] => rw [hsp] at h; simp at h
  | [a] => rw [hsp] at h; simp at h
  | [a, b] => rw [hsp] at h; simp at h
  | [a, b, c3] => rw [hsp] at h; simp at h
  | a :: b :: c3 :: d :: x :: l => rw [hsp] at h; simp at h

theorem pairCount_append (o c : Str) (d1 d2 : List Delivery) :
    pairCount o c (d1 ++ d2) = pairCount o c d1 + pairCount o c d2 := by
  unfold pairCount
  rw [List.filter_append, List.length_append]

theorem step_pairCount_zero (o c : Str) (st : RelayState) (i : Inbound)
    (h : isPairArrival o c i = false) :
    pairCount o c (onPayloadReceived st i.endpointId i.raw i.time).delivered
      = 0 := by
  unfold pairCount
  rw [List.length_eq_zero]
  rw [List.filter_eq_nil_iff]
  intro d hd
  obtain ⟨o2, n, hs, c2, hsp, hfrom, hmsg⟩ :=
    recv_delivered_decode st i.endpointId i.raw i.time d hd
  rw [isPairArrival_eq o c i o2 n hs c2 hsp] at h
  simp only [Bool.and_eq_true, not_and]
  rw [hfrom, hmsg]
  intro ho
  simp only [Bool.and_eq_false_iff] at h
  rcases h with h | h
  · rw [ho] at h; simp at h
  · intro hcc
    rw [hcc] at h
    simp at h

theorem pairCount_single (o c n : Str) (hop : Int) (t : Int) :
    pairCount o c [⟨c, o, n, hop, t⟩] = 1 := by
  unfold pairCount
  simp

theorem processAll_cons_delivered (st : RelayState) (i : Inbound)
    (rest : List Inbound) :
    (processAll st (i :: rest)).2.1
      = (onPayloadReceived st i.endpointId i.raw i.time).delivered
        ++ (processAll
            (onPayloadReceived st i.endpointId i.raw i.time).state rest).2.1
      := rfl

/-- No arrival in the trace parses to the pair: the pair is never
delivered. -/
theorem pairCount_zero_of_no_arrival (o c : Str) (st : RelayState)
    (L : List Inbound) (h : ∀ i ∈ L, isPairArrival o c i = false) :
    pairCount o c (processAll st L).2.1 = 0 := by
  induction L generalizing st with
  | nil => rfl
  | cons i rest ih =>
    rw [processAll_cons_delivered, pairCount_append]
    rw [step_pairCount_zero o c st i (h i (by simp))]
    rw [ih _ (fun j hj => h j (by simp [hj]))]

/-- While the pair's fingerprint is cached with timestamp `ts`, a trace of
arrivals whose pair arrivals all happen within the retention window of
`ts` never delivers the pair. -/
theorem pairCount_zero_of_cached (o c : Str) (st : RelayState) (ts : Int)
    (L : List Inbound)
    (hk : lookupTs st.seenMessages (messageHash o c) = some ts)
    (hmono : List.Pairwise (fun a b => a.time ≤ b.time) L)
    (hwin : ∀ i ∈ L, isPairArrival o c i = true
      → i.time ≤ ts + MESSAGE_CACHE_DURATION) :
    pairCount o c (processAll st L).2.1 = 0 := by
  induction L generalizing st with
  | nil => rfl
  | cons i rest ih =>
    by_cases hpt : i.time ≤ ts + MESSAGE_CACHE_DURATION
    · rw [processAll_cons_delivered, pairCount_append]
      have hstep0 : pairCount o c
          (onPayloadReceived st i.endpointId i.raw i.time).delivered = 0 := by
        by_cases hp : isPairArrival o c i = true
        · obtain ⟨n, hs, hsp⟩ := isPairArrival_elim o c i hp
          have hseen : containsKey st.seenMessages (messageHash o c) = true := by
            unfold containsKey
            rw [hk]
            rfl
          rw [recv_dup st i.endpointId i.raw i.time o n hs c hsp hseen]
          rfl
        · exact step_pairCount_zero o c st i (by simpa using hp)
      rw [hstep0]
      have hk2 : lookupTs
          (onPayloadReceived st i.endpointId i.raw i.time).state.seenMessages
          (messageHash o c) = some ts :=
        recv_hash_kept st i.endpointId i.raw i.time (messageHash o c) ts hk
          (by omega)
      rw [ih _ hk2 (List.Pairwise.of_cons hmono)
        (fun j hj hjp => hwin j (by simp [hj]) hjp)]
    · have hall : ∀ j ∈ i :: rest, isPairArrival o c j = false := by
        intro j hj
        rcases List.mem_cons.mp hj with hj | hj
        · subst hj
          by_contra hb
          exact hpt (hwin j (by simp) (by simpa using hb))
        · by_contra hb
          have hij : i.time ≤ j.time :=
            (List.pairwise_cons.mp hmono).1 j hj
          have := hwin j (by simp [hj]) (by simpa using hb)
          omega
      exact pairCount_zero_of_no_arrival o c st (i :: rest) hall

/-- Main trace lemma: starting with the pair fingerprint absent, for a
time-ordered trace whose pair arrivals are pairwise within one retention
window and whose other arrivals never collide with the pair fingerprint,
the pair is delivered exactly once as soon as it occurs at all. -/
theorem pairCount_eq_one (o c : Str) (st : RelayState) (L : List Inbound)
    (hk : lookupTs st.seenMessages (messageHash o c) = none)
    (hmono : List.Pairwise (fun a b => a.time ≤ b.time) L)
    (hwin : ∀ i ∈ L, ∀ j ∈ L, isPairArrival o c i = true
      → isPairArrival o c j = true
      → j.time - i.time ≤ MESSAGE_CACHE_DURATION)
    (hnocoll : ∀ i ∈ L, isPairArrival o c i = false
      → arrivalHash i ≠ some (messageHash o c))
    (hex : ∃ i ∈ L, isPairArrival o c i = true) :
    pairCount o c (processAll st L).2.1 = 1 := by
  induction L generalizing st with
  | nil => simp at hex
  | cons i rest ih =>
    rw [processAll_cons_delivered, pairCount_append]
    by_cases hp : isPairArrival o c i = true
    · obtain ⟨n, hs, hsp⟩ := isPairArrival_elim o c i hp
      have hseen : containsKey st.seenMessages (messageHash o c) = false := by
        unfold containsKey
        rw [hk]
        rfl
      have hf := recv_fresh st i.endpointId i.raw i.time o n hs c hsp hseen
      rw [hf.1, pairCount_single]
      have hk2 : lookupTs
          (onPayloadReceived st i.endpointId i.raw i.time).state.seenMessages
          (messageHash o c) = some i.time := by
        rw [hf.2.1]
        exact lookupTs_cleanup_keep _ _ i.time i.time
          (lookupTs_putTs_self _ _ _)
          (by unfold MESSAGE_CACHE_DURATION; omega)
      have hrest0 : pairCount o c (processAll
          (onPayloadReceived st i.endpointId i.raw i.time).state rest).2.1
          = 0 := by
        apply pairCount_zero_of_cached o c _ i.time rest hk2
          (List.Pairwise.of_cons hmono)
        intro j hj hjp
        have := hwin i (by simp) j (by simp [hj]) hp hjp
        omega
      rw [hrest0]
    · have hp' : isPairArrival o c i = false := by simpa using hp
      rw [step_pairCount_zero o c st i hp']
      have hk2 : lookupTs
          (onPayloadReceived st i.endpointId i.raw i.time).state.seenMessages
          (messageHash o c) = none := by
        apply recv_hash_absent st i.endpointId i.raw i.time _ hk
        intro o2 n hs c2 hsp
        have := hnocoll i (by simp) hp'
        rw [arrivalHash_eq i o2 n hs c2 hsp] at this
        intro hcc
        exact this (by rw [hcc])
      have hex2 : ∃ j ∈ rest, isPairArrival o c j = true := by
        obtain ⟨j, hj, hjp⟩ := hex
        rcases List.mem_cons.mp hj with hj | hj
        · subst hj
          exact absurd hjp hp
        · exact ⟨j, hj, hjp⟩
      rw [ih _ hk2 (List.Pairwise.of_cons hmono)
        (fun a ha b hb hap hbp =>
          hwin a (by simp [ha]) b (by simp [hb]) hap hbp)
        (fun a ha hap => hnocoll a (by simp [ha]) hap) hex2]

/-! ### Forwarding and send-path lemmas -/

theorem mem_forward (conns : List Str) (msg sender : Str) (p : Str × Str)
    (hp : p ∈ forwardMessageToOthers conns msg sender) :
    p.2 = msg ∧ p.1 ∈ conns ∧ p.1 ≠ sender := by
  unfold forwardMessageToOthers at hp
  obtain ⟨l, hl, hpe⟩ := List.mem_map.mp hp
  have hl2 := List.mem_filter.mp hl
  subst hpe
  refine ⟨rfl, hl2.1, ?_⟩
  simpa using hl2.2

theorem forward_complete (conns : List Str) (msg sender l : Str)
    (hl : l ∈ conns) (hne : l ≠ sender) :
    (l, msg) ∈ forwardMessageToOthers conns msg sender := by
  unfold forwardMessageToOthers
  exact List.mem_map.mpr ⟨l, List.mem_filter.mpr ⟨hl, by simpa using hne⟩, rfl⟩

theorem recv_sent_shape (st : RelayState) (e raw : Str) (t : Int) :
    (onPayloadReceived st e raw t).sent = []
    ∨ ∃ msg, (onPayloadReceived st e raw t).sent
        = forwardMessageToOthers st.connectedEndpoints msg e := by
  by_cases h4 : (splitLimit SEP 4 raw).length = 4
  · match hsp : splitLimit SEP 4 raw with
    | [o, n, hs, c] =>
      by_cases hseen : containsKey st.seenMessages (messageHash o c) = true
      · rw [recv_dup st e raw t o n hs c hsp hseen]
        left
        rfl
      · have hf := recv_fresh st e raw t o n hs c hsp (by simpa using hseen)
        by_cases httl : (toIntOrNull hs).getD 0 ≥ MAX_HOPS
        · left
          exact hf.2.2.2.2.1 httl
        · right
          exact ⟨_, hf.2.2.2.2.2 httl⟩
    | [] => rw [hsp] at h4; simp at h4
    | [a] => rw [hsp] at h4; simp at h4
    | [a, b] => rw [hsp] at h4; simp at h4
    | [a, b, c] => rw [hsp] at h4; simp at h4
    | a :: b :: c :: d :: x :: l => rw [hsp] at h4; simp at h4
  · rw [recv_not4 st e raw t h4]
    left
    rfl

theorem send_marks_seen (st : RelayState) (message senderName : Str)
    (target : Option Str) (now : Int) (transmitOk : Bool) (failMsg : Str) :
    lookupTs
      (sendMessage st message senderName target now transmitOk
        failMsg).state.seenMessages
      (messageHash
        (sendMessage st message senderName target now transmitOk
          failMsg).state.localEndpointId message) = some now
    ∧ (sendMessage st message senderName target now transmitOk
        failMsg).state.connectedEndpoints = st.connectedEndpoints := by
  unfold sendMessage
  rcases target with _ | target
  · by_cases hconn : st.connectedEndpoints = []
    · simp only [hconn, if_true]
      exact ⟨lookupTs_putTs_self _ _ _, trivial⟩
    · simp only [hconn, if_false]
      exact ⟨lookupTs_putTs_self _ _ _, trivial⟩
  · by_cases hok : transmitOk = true
    · simp only [hok, if_true]
      exact ⟨lookupTs_putTs_self _ _ _, trivial⟩
    · simp only [Bool.not_eq_true] at hok
      simp only [hok, Bool.false_eq_true, if_false]
      exact ⟨lookupTs_putTs_self _ _ _, trivial⟩

theorem processAll_state_hash_kept (st : RelayState) (L : List Inbound)
    (k : Nat) (ts : Int) (hk : lookupTs st.seenMessages k = some ts)
    (hL : ∀ i ∈ L, i.time - ts ≤ MESSAGE_CACHE_DURATION) :
    lookupTs (processAll st L).1.seenMessages k = some ts := by
  induction L generalizing st with
  | nil => exact hk
  | cons i rest ih =>
    have h1 := recv_hash_kept st i.endpointId i.raw i.time k ts hk
      (hL i (by simp))
    exact ih _ h1 (fun j hj => hL j (by simp [hj]))

instance decKeysNodup (m : List (Nat × Int)) : Decidable (keysNodup m) :=
  inferInstanceAs (Decidable (m.map Prod.fst).Nodup)

theorem keys_putTs_mem (m : List (Nat × Int)) (k : Nat) (v : Int) (x : Nat)
    (hx : x ∈ (putTs m k v).map Prod.fst) :
    x ∈ m.map Prod.fst ∨ x = k := by
  induction m with
  | nil =>
    simp [putTs] at hx
    right
    exact hx
  | cons p rest ih =>
    unfold putTs at hx
    by_cases hp : p.1 = k
    · rw [if_pos hp] at hx
      simp at hx
      rcases hx with hx | hx
      · right; exact hx
      · left; simp [hx]
    · rw [if_neg hp] at hx
      simp at hx
      rcases hx with hx | hx
      · left; simp [hx]
      · rcases ih (by simpa using hx) with h | h
        · left; simp; right; simpa using h
        · right; exact h

theorem keysNodup_putTs (m : List (Nat × Int)) (k : Nat) (v : Int)
    (h : keysNodup m) : keysNodup (putTs m k v) := by
  induction m with
  | nil => simp [putTs, keysNodup]
  | cons p rest ih =>
    have h12 : p.1 ∉ rest.map Prod.fst ∧ (rest.map Prod.fst).Nodup := by
      unfold keysNodup at h
      simpa [List.nodup_cons] using h
    unfold putTs
    by_cases hp : p.1 = k
    · rw [if_pos hp]
      unfold keysNodup
      simp only [List.map_cons, List.nodup_cons]
      constructor
      · rw [← hp]
        exact h12.1
      · exact h12.2
    · rw [if_neg hp]
      unfold keysNodup
      simp only [List.map_cons, List.nodup_cons]
      constructor
      · intro hmem
        rcases keys_putTs_mem rest k v p.1 hmem with hh | hh
        · exact h12.1 hh
        · exact hp hh
      · exact ih h12.2

/-! ### The claims -/

/-- C1: TTL boundedness.  For an inbound envelope decoding to fields
`o, n, hs, c` with hop count `hop = toIntOrNull hs ?: 0`: if
`hop ≥ MAX_HOPS` and the envelope is not a cached duplicate, it is
delivered to the application but not forwarded; and every payload the
relay does transmit for it carries hop field `hop + 1` with
`hop + 1 ≤ MAX_HOPS` — so the relay never transmits an envelope whose
hop count exceeds `MAX_HOPS`. -/
theorem C1_ttl_boundedness (st : RelayState) (e raw : Str) (t : Int)
    (o n hs c : Str) (hsp : splitLimit SEP 4 raw = [o, n, hs, c]) :
    ((toIntOrNull hs).getD 0 ≥ MAX_HOPS
      → containsKey st.seenMessages (messageHash o c) = false
      → (onPayloadReceived st e raw t).delivered
          = [⟨c, o, n, (toIntOrNull hs).getD 0, t⟩]
        ∧ (onPayloadReceived st e raw t).sent = [])
    ∧ (∀ p ∈ (onPayloadReceived st e raw t).sent,
        p.2 = mkMessage o n (intToStr ((toIntOrNull hs).getD 0 + 1)) c
          ∧ (toIntOrNull hs).getD 0 + 1 ≤ MAX_HOPS) := by
  constructor
  · intro httl hnew
    have hf := recv_fresh st e raw t o n hs c hsp hnew
    exact ⟨hf.1, hf.2.2.2.2.1 httl⟩
  · intro p hp
    by_cases hseen : containsKey st.seenMessages (messageHash o c) = true
    · rw [recv_dup st e raw t o n hs c hsp hseen] at hp
      simp at hp
    · have hf := recv_fresh st e raw t o n hs c hsp (by simpa using hseen)
      by_cases httl : (toIntOrNull hs).getD 0 ≥ MAX_HOPS
      · rw [hf.2.2.2.2.1 httl] at hp
        simp at hp
      · rw [hf.2.2.2.2.2 httl] at hp
        have hm := mem_forward _ _ _ p hp
        exact ⟨hm.1, by omega⟩

theorem C1_ttl_boundedness_witness :
    (onPayloadReceived ⟨[], [[69], [70]], [76]⟩ [69]
        (mkMessage [65] [66] [49, 48] [67]) 5).delivered
      = [⟨[67], [65], [66], 10, 5⟩]
    ∧ (onPayloadReceived ⟨[], [[69], [70]], [76]⟩ [69]
        (mkMessage [65] [66] [49, 48] [67]) 5).sent = [] := by
  have h := C1_ttl_boundedness ⟨[], [[69], [70]], [76]⟩ [69]
    (mkMessage [65] [66] [49, 48] [67]) 5 [65] [66] [49, 48] [67] (by decide)
  exact h.1 (by decide) (by decide)

/-- C2: the claim says a payload whose hop-count field is not a valid
non-negative integer fails to decode and is dropped, never defaulting the
hop count to 0.  The code instead falls back (`toIntOrNull() ?: 0`): a
payload with hop field `"abc"` is delivered with hop count 0, and one
with hop field `"-3"` parses to the negative integer −3 and is delivered
with hop count −3.  Neither is dropped. -/
theorem C2_hop_fallback_behavior :
    (onPayloadReceived ⟨[], [[69], [70]], [76]⟩ [69]
        (mkMessage [65] [66] [97, 98, 99] [104, 105]) 5).delivered
      = [⟨[104, 105], [65], [66], 0, 5⟩]
    ∧ (onPayloadReceived ⟨[], [[69], [70]], [76]⟩ [69]
        (mkMessage [65] [67] [45, 51] [104, 106]) 5).delivered
      = [⟨[104, 106], [65], [67], -3, 5⟩] := by decide

/-- C3 (counterexample): the dedup key is a 32-bit string hash, and
`"X:Aa"` and `"X:BB"` collide.  The trace below contains two well-formed
envelopes with identical pair `(origin "X", content "Aa")`, arriving
within one retention window of each other, yet the pair is delivered zero
times (not once): the earlier, different message `("X", "BB")` already
cached the colliding fingerprint. -/
theorem C3_collision_counterexample :
    isPairArrival [88] [65, 97]
        ⟨[69], mkMessage [88] [78] [48] [65, 97], 1⟩ = true
    ∧ messageHash [88] [66, 66] = messageHash [88] [65, 97]
    ∧ pairCount [88] [65, 97]
        (processAll ⟨[], [[70]], [76]⟩
          [⟨[69], mkMessage [88] [78] [48] [66, 66], 0⟩,
           ⟨[69], mkMessage [88] [78] [48] [65, 97], 1⟩,
           ⟨[69], mkMessage [88] [78] [48] [65, 97], 2⟩]).2.1 = 0 := by
  decide

/-- C3 (amended): no-duplicate-delivery.  For a time-ordered trace of
inbound payloads containing at least one well-formed envelope of the pair
`(o, c)`, all pair arrivals within one retention window of each other,
where the pair's fingerprint is not already cached and no other processed
envelope carries a colliding fingerprint, the `onMessageReceived`
callback fires exactly once for the pair. -/
theorem C3_no_duplicate_delivery (o c : Str) (st : RelayState)
    (L : List Inbound)
    (hk : lookupTs st.seenMessages (messageHash o c) = none)
    (hmono : List.Pairwise (fun a b => a.time ≤ b.time) L)
    (hwin : ∀ i ∈ L, ∀ j ∈ L, isPairArrival o c i = true
      → isPairArrival o c j = true
      → j.time - i.time ≤ MESSAGE_CACHE_DURATION)
    (hnocoll : ∀ i ∈ L, isPairArrival o c i = false
      → arrivalHash i ≠ some (messageHash o c))
    (hex : ∃ i ∈ L, isPairArrival o c i = true) :
    pairCount o c (processAll st L).2.1 = 1 :=
  pairCount_eq_one o c st L hk hmono hwin hnocoll hex

theorem C3_no_duplicate_delivery_witness :
    pairCount [88] [65, 97]
      (processAll ⟨[], [[70]], [76]⟩
        [⟨[69], mkMessage [88] [78] [48] [65, 97], 0⟩,
         ⟨[69], mkMessage [88] [78] [49] [65, 97], 60000⟩]).2.1 = 1 :=
  C3_no_duplicate_delivery [88] [65, 97] ⟨[], [[70]], [76]⟩
    [⟨[69], mkMessage [88] [78] [48] [65, 97], 0⟩,
     ⟨[69], mkMessage [88] [78] [49] [65, 97], 60000⟩]
    (by decide) (by decide) (by decide) (by decide) (by decide)

/-- C4: the claim says an identical `(origin, content)` pair arriving
after the retention window has elapsed is treated as new and delivered
again.  The code checks `containsKey` before any cleanup, and
`cleanupOldMessages` only runs when an unseen message is processed, so
with no intervening traffic the second arrival of `("A", "retry")` 70
seconds later still hits the stale cache entry and is silently dropped:
the two-arrival trace delivers the pair once, and the second step
changes nothing and emits nothing. -/
theorem C4_stale_entry_drop_behavior :
    pairCount [65] [114, 101, 116, 114, 121]
      (processAll ⟨[], [[70]], [76]⟩
        [⟨[69], mkMessage [65] [78] [48] [114, 101, 116, 114, 121], 0⟩,
         ⟨[69], mkMessage [65] [78] [48] [114, 101, 116, 114, 121],
           70000⟩]).2.1 = 1
    ∧ (onPayloadReceived
        (processAll ⟨[], [[70]], [76]⟩
          [⟨[69], mkMessage [65] [78] [48] [114, 101, 116, 114, 121],
            0⟩]).1
        [69] (mkMessage [65] [78] [48] [114, 101, 116, 114, 121]) 70000)
      = ⟨(processAll ⟨[], [[70]], [76]⟩
          [⟨[69], mkMessage [65] [78] [48] [114, 101, 116, 114, 121],
            0⟩]).1, [], []⟩ := by
  decide

/-- C5: no-echo.  `sendMessage` records the fingerprint of
`(local id, content)` in the cache (timestamped at the send) before any
transmission; after any further inbound traffic within the retention
window, an envelope carrying the same origin id and content — whatever
its display name, hop field and arrival link — is neither delivered to
the application nor forwarded. -/
theorem C5_no_echo (st : RelayState) (message senderName : Str)
    (target : Option Str) (t1 : Int) (transmitOk : Bool) (failMsg : Str)
    (L : List Inbound)
    (hL : ∀ i ∈ L, i.time - t1 ≤ MESSAGE_CACHE_DURATION)
    (e2 n2 hs2 : Str) (t2 : Int)
    (hgo : goodField (sendMessage st message senderName target t1
      transmitOk failMsg).state.localEndpointId)
    (hgn : goodField n2) (hgh : goodField hs2)
    (_ht2 : t2 - t1 ≤ MESSAGE_CACHE_DURATION) :
    (onPayloadReceived
        (processAll (sendMessage st message senderName target t1
          transmitOk failMsg).state L).1
        e2
        (mkMessage (sendMessage st message senderName target t1 transmitOk
          failMsg).state.localEndpointId n2 hs2 message)
        t2).delivered = []
    ∧ (onPayloadReceived
        (processAll (sendMessage st message senderName target t1
          transmitOk failMsg).state L).1
        e2
        (mkMessage (sendMessage st message senderName target t1 transmitOk
          failMsg).state.localEndpointId n2 hs2 message)
        t2).sent = [] := by
  have h1 := (send_marks_seen st message senderName target t1 transmitOk
    failMsg).1
  have h2 := processAll_state_hash_kept
    (sendMessage st message senderName target t1 transmitOk failMsg).state
    L _ t1 h1 hL
  have hsp := split4_mkMessage
    (sendMessage st message senderName target t1 transmitOk
      failMsg).state.localEndpointId n2 hs2 message hgo hgn hgh
  have hseen : containsKey
      (processAll (sendMessage st message senderName target t1 transmitOk
        failMsg).state L).1.seenMessages
      (messageHash (sendMessage st message senderName target t1 transmitOk
        failMsg).state.localEndpointId message) = true := by
    unfold containsKey
    rw [h2]
    rfl
  rw [recv_dup _ e2 _ t2 _ n2 hs2 message hsp hseen]
  exact ⟨rfl, rfl⟩

theorem C5_no_echo_witness :
    (onPayloadReceived
        (processAll (sendMessage ⟨[], [[69]], [76]⟩ [77] [66] none 0 true
          []).state []).1
        [69]
        (mkMessage (sendMessage ⟨[], [[69]], [76]⟩ [77] [66] none 0 true
          []).state.localEndpointId [66] [48] [77])
        50).delivered = []
    ∧ (onPayloadReceived
        (processAll (sendMessage ⟨[], [[69]], [76]⟩ [77] [66] none 0 true
          []).state []).1
        [69]
        (mkMessage (sendMessage ⟨[], [[69]], [76]⟩ [77] [66] none 0 true
          []).state.localEndpointId [66] [48] [77])
        50).sent = [] :=
  C5_no_echo ⟨[], [[69]], [76]⟩ [77] [66] none 0 true [] []
    (by decide) [69] [66] [48] 50 (by decide) (by decide) (by decide)
    (by decide)

/-- C6: fan-out exclusion.  Whatever the relay sends in response to an
inbound payload goes only to connected links other than the arrival link,
and when it forwards at all it reaches every connected link except the
arrival link. -/
theorem C6_fanout_exclusion (st : RelayState) (e raw : Str) (t : Int) :
    (∀ p ∈ (onPayloadReceived st e raw t).sent,
      p.1 ≠ e ∧ p.1 ∈ st.connectedEndpoints)
    ∧ ((onPayloadReceived st e raw t).sent ≠ []
      → ∀ l ∈ st.connectedEndpoints, l ≠ e
        → ∃ m, (l, m) ∈ (onPayloadReceived st e raw t).sent) := by
  rcases recv_sent_shape st e raw t with hshape | ⟨msg, hshape⟩
  · rw [hshape]
    exact ⟨fun p hp => absurd hp (by simp), fun hne => absurd rfl hne⟩
  · rw [hshape]
    constructor
    · intro p hp
      have hm := mem_forward _ _ _ p hp
      exact ⟨hm.2.2, hm.2.1⟩
    · intro _ l hl hlne
      exact ⟨msg, forward_complete _ _ _ _ hl hlne⟩

theorem C6_fanout_exclusion_witness :
    (∀ p ∈ (onPayloadReceived ⟨[], [[69], [70], [71]], [76]⟩ [69]
        (mkMessage [65] [66] [48] [67]) 5).sent,
      p.1 ≠ [69] ∧ p.1 ∈ [[69], [70], [71]])
    ∧ ((onPayloadReceived ⟨[], [[69], [70], [71]], [76]⟩ [69]
        (mkMessage [65] [66] [48] [67]) 5).sent ≠ []
      → ∀ l ∈ [[69], [70], [71]], l ≠ [69]
        → ∃ m, (l, m) ∈ (onPayloadReceived ⟨[], [[69], [70], [71]], [76]⟩
            [69] (mkMessage [65] [66] [48] [67]) 5).sent) :=
  C6_fanout_exclusion ⟨[], [[69], [70], [71]], [76]⟩ [69]
    (mkMessage [65] [66] [48] [67]) 5

/-- C7: fingerprint stability.  The dedup fingerprint is a function of
`(origin, content)` alone, and a forwarded envelope re-parses to the same
origin and content (with the hop field re-rendered as `hop + 1`), so the
fingerprint computed at the next hop equals the fingerprint computed
here — for any origin and display name without an embedded delimiter. -/
theorem C7_fingerprint_stability (st : RelayState) (e raw : Str) (t : Int)
    (o n hs c : Str) (hsp : splitLimit SEP 4 raw = [o, n, hs, c])
    (hgo : goodField o) (hgn : goodField n) :
    ∀ p ∈ (onPayloadReceived st e raw t).sent,
      splitLimit SEP 4 p.2
        = [o, n, intToStr ((toIntOrNull hs).getD 0 + 1), c]
      ∧ ∀ o2 n2 hs2 c2, splitLimit SEP 4 p.2 = [o2, n2, hs2, c2]
        → messageHash o2 c2 = messageHash o c := by
  intro p hp
  by_cases hseen : containsKey st.seenMessages (messageHash o c) = true
  · rw [recv_dup st e raw t o n hs c hsp hseen] at hp
    simp at hp
  · have hf := recv_fresh st e raw t o n hs c hsp (by simpa using hseen)
    by_cases httl : (toIntOrNull hs).getD 0 ≥ MAX_HOPS
    · rw [hf.2.2.2.2.1 httl] at hp
      simp at hp
    · rw [hf.2.2.2.2.2 httl] at hp
      have hm := mem_forward _ _ _ p hp
      have hsplit : splitLimit SEP 4 p.2
          = [o, n, intToStr ((toIntOrNull hs).getD 0 + 1), c] := by
        rw [hm.1]
        exact split4_mkMessage o n _ c hgo hgn (goodField_intToStr _)
      refine ⟨hsplit, ?_⟩
      intro o2 n2 hs2 c2 h2
      rw [hsplit] at h2
      simp only [List.cons.injEq, and_true] at h2
      rw [← h2.1, ← h2.2.2.2]

theorem C7_fingerprint_stability_witness :
    splitLimit SEP 4 (mkMessage [65] [66] [49] [67])
      = [[65], [66], intToStr ((toIntOrNull [48]).getD 0 + 1), [67]]
    ∧ messageHash [65] [67] = messageHash [65] [67] := by
  have h := C7_fingerprint_stability ⟨[], [[69], [70]], [76]⟩ [69]
    (mkMessage [65] [66] [48] [67]) 5 [65] [66] [48] [67]
    (by decide) (by decide) (by decide)
  have h2 := h ([70], mkMessage [65] [66] [49] [67]) (by decide)
  exact ⟨h2.1, h2.2 [65] [66] [49] [67] (by decide)⟩

theorem send_state_seen (st : RelayState) (message senderName : Str)
    (target : Option Str) (now : Int) (transmitOk : Bool) (failMsg : Str) :
    (sendMessage st message senderName target now transmitOk
      failMsg).state.seenMessages
      = putTs st.seenMessages
        (messageHash (sendMessage st message senderName target now
          transmitOk failMsg).state.localEndpointId message) now := by
  unfold sendMessage
  rcases target with _ | target
  · by_cases hconn : st.connectedEndpoints = [] <;> simp [hconn]
  · by_cases hok : transmitOk = true
    · simp [hok]
    · simp only [Bool.not_eq_true] at hok
      simp [hok]

/-- C8 (counterexample): with a seen-record for the fingerprint of
`(local id "L", content "M")` created at time 5, re-sending the same
content at time 100 overwrites the record's timestamp to 100 — the claim
that no later operation changes `first_seen_timestamp` fails on the
send path. -/
theorem C8_resend_refresh_counterexample :
    lookupTs [(messageHash [76] [77], 5)] (messageHash [76] [77]) = some 5
    ∧ lookupTs
        (sendMessage ⟨[(messageHash [76] [77], 5)], [[69]], [76]⟩ [77]
          [66] none 100 true []).state.seenMessages
        (messageHash [76] [77]) = some 100 := by
  decide

/-- C8 (amended): relay processing never mutates an existing seen-record:
after `onPayloadReceived` the record is still there with its original
timestamp or has been evicted wholesale.  A local re-send of the same
content, however, overwrites that record's timestamp with the send time;
every other record keeps its original timestamp across a send. -/
theorem C8_seen_record_mutation (st : RelayState) (e raw : Str) (t : Int)
    (k : Nat) (ts : Int) (hn : keysNodup st.seenMessages)
    (hk : lookupTs st.seenMessages k = some ts)
    (message senderName failMsg : Str) (target : Option Str)
    (transmitOk : Bool) :
    (lookupTs (onPayloadReceived st e raw t).state.seenMessages k = some ts
      ∨ lookupTs (onPayloadReceived st e raw t).state.seenMessages k = none)
    ∧ lookupTs
        (sendMessage st message senderName target t transmitOk
          failMsg).state.seenMessages
        (messageHash (sendMessage st message senderName target t transmitOk
          failMsg).state.localEndpointId message) = some t
    ∧ (k ≠ messageHash (sendMessage st message senderName target t
          transmitOk failMsg).state.localEndpointId message
      → lookupTs (sendMessage st message senderName target t transmitOk
          failMsg).state.seenMessages k = some ts) := by
  refine ⟨?_, (send_marks_seen st message senderName target t transmitOk
    failMsg).1, ?_⟩
  · by_cases h4 : (splitLimit SEP 4 raw).length = 4
    · match hsp : splitLimit SEP 4 raw with
      | [o, n, hs, c] =>
        by_cases hseen : containsKey st.seenMessages (messageHash o c)
            = true
        · rw [recv_dup st e raw t o n hs c hsp hseen]
          left
          exact hk
        · have hf := recv_fresh st e raw t o n hs c hsp
            (by simpa using hseen)
          have hne : k ≠ messageHash o c := by
            intro hkk
            rw [hkk] at hk
            unfold containsKey at hseen
            rw [hk] at hseen
            simp at hseen
          rw [hf.2.1]
          rcases hv : lookupTs
              (cleanupOldMessages (putTs st.seenMessages (messageHash o c)
                t) t) k with _ | ts2
          · right
            rfl
          · left
            have hsub := lookupTs_cleanup_sub _ k ts2 t
              (keysNodup_putTs _ _ _ hn) hv
            rw [lookupTs_putTs_ne _ _ _ _ hne, hk] at hsub
            injection hsub with hts
            rw [← hts]
      | [] => rw [hsp] at h4; simp at h4
      | [a] => rw [hsp] at h4; simp at h4
      | [a, b] => rw [hsp] at h4; simp at h4
      | [a, b, c] => rw [hsp] at h4; simp at h4
      | a :: b :: c :: d :: x :: l => rw [hsp] at h4; simp at h4
    · rw [recv_not4 st e raw t h4]
      left
      exact hk
  · intro hne
    rw [send_state_seen]
    rw [lookupTs_putTs_ne _ _ _ _ hne]
    exact hk

theorem C8_seen_record_mutation_witness :
    (lookupTs (onPayloadReceived ⟨[(messageHash [76] [77], 5)], [[69]],
        [76]⟩ [69] (mkMessage [65] [66] [48] [67]) 50).state.seenMessages
        (messageHash [76] [77]) = some 5
      ∨ lookupTs (onPayloadReceived ⟨[(messageHash [76] [77], 5)], [[69]],
        [76]⟩ [69] (mkMessage [65] [66] [48] [67]) 50).state.seenMessages
        (messageHash [76] [77]) = none)
    ∧ lookupTs
        (sendMessage ⟨[(messageHash [76] [77], 5)], [[69]], [76]⟩ [77]
          [66] none 50 true []).state.seenMessages
        (messageHash (sendMessage ⟨[(messageHash [76] [77], 5)], [[69]],
          [76]⟩ [77] [66] none 50 true []).state.localEndpointId [77])
        = some 50
    ∧ (messageHash [76] [77] ≠ messageHash (sendMessage
          ⟨[(messageHash [76] [77], 5)], [[69]], [76]⟩ [77] [66] none 50
          true []).state.localEndpointId [77]
      → lookupTs (sendMessage ⟨[(messageHash [76] [77], 5)], [[69]],
          [76]⟩ [77] [66] none 50 true []).state.seenMessages
          (messageHash [76] [77]) = some 5) :=
  C8_seen_record_mutation ⟨[(messageHash [76] [77], 5)], [[69]], [76]⟩
    [69] (mkMessage [65] [66] [48] [67]) 50 (messageHash [76] [77]) 5
    (by decide) (by decide) [77] [66] [] none true

/-- C9: send outcome surfacing.  A broadcast send with no connected links
fires `onMessageError` with `"No connected peers"`, fires no
`onMessageSent`, and hands nothing to the link layer; a targeted send
whose transmission fails fires `onMessageError` with the failure message
and no `onMessageSent`.  (Both are ordinary results of the total
`sendMessage` function — events, not exceptions.) -/
theorem C9_send_outcomes (st : RelayState) (message senderName failMsg :
    Str) (t : Int) :
    (st.connectedEndpoints = []
      → (sendMessage st message senderName none t true failMsg).errorEvent
          = some noPeersMsg
        ∧ (sendMessage st message senderName none t true
            failMsg).sentEvent = false
        ∧ (sendMessage st message senderName none t true failMsg).sent
          = [])
    ∧ ∀ target : Str,
        (sendMessage st message senderName (some target) t false
          failMsg).errorEvent = some failMsg
        ∧ (sendMessage st message senderName (some target) t false
          failMsg).sentEvent = false := by
  constructor
  · intro hempty
    unfold sendMessage
    simp [hempty]
  · intro target
    unfold sendMessage
    simp

theorem C9_send_outcomes_witness :
    ((sendMessage ⟨[], [], [76]⟩ [77] [66] none 0 true [70]).errorEvent
        = some noPeersMsg
      ∧ (sendMessage ⟨[], [], [76]⟩ [77] [66] none 0 true [70]).sentEvent
        = false
      ∧ (sendMessage ⟨[], [], [76]⟩ [77] [66] none 0 true [70]).sent = [])
    ∧ ((sendMessage ⟨[], [], [76]⟩ [77] [66] (some [90]) 0 false
        [70]).errorEvent = some [70]
      ∧ (sendMessage ⟨[], [], [76]⟩ [77] [66] (some [90]) 0 false
        [70]).sentEvent = false) := by
  have h := C9_send_outcomes ⟨[], [], [76]⟩ [77] [66] [70] 0
  exact ⟨h.1 rfl, h.2 [90]⟩

/-- C10: a failed no-peers broadcast is not atomic.  With no connected
links the broadcast surfaces the `"No connected peers"` error, yet the
fingerprint of `(local id, content)` is already in the cache, timestamped
at the send; a copy of the same pair arriving from the network within the
retention window is then silently discarded — neither delivered nor
forwarded. -/
theorem C10_no_peers_cache_persists (st : RelayState)
    (message senderName failMsg : Str) (t1 : Int)
    (hempty : st.connectedEndpoints = [])
    (e2 n2 hs2 : Str) (t2 : Int)
    (hgo : goodField (sendMessage st message senderName none t1 true
      failMsg).state.localEndpointId)
    (hgn : goodField n2) (hgh : goodField hs2)
    (_hwin : t2 - t1 ≤ MESSAGE_CACHE_DURATION) :
    (sendMessage st message senderName none t1 true failMsg).errorEvent
      = some noPeersMsg
    ∧ lookupTs (sendMessage st message senderName none t1 true
        failMsg).state.seenMessages
        (messageHash (sendMessage st message senderName none t1 true
          failMsg).state.localEndpointId message) = some t1
    ∧ (onPayloadReceived (sendMessage st message senderName none t1 true
        failMsg).state e2
        (mkMessage (sendMessage st message senderName none t1 true
          failMsg).state.localEndpointId n2 hs2 message) t2).delivered = []
    ∧ (onPayloadReceived (sendMessage st message senderName none t1 true
        failMsg).state e2
        (mkMessage (sendMessage st message senderName none t1 true
          failMsg).state.localEndpointId n2 hs2 message) t2).sent = [] := by
  have herr : (sendMessage st message senderName none t1 true
      failMsg).errorEvent = some noPeersMsg := by
    unfold sendMessage
    simp [hempty]
  have h1 := (send_marks_seen st message senderName none t1 true
    failMsg).1
  have hsp := split4_mkMessage
    (sendMessage st message senderName none t1 true
      failMsg).state.localEndpointId n2 hs2 message hgo hgn hgh
  have hseen : containsKey
      (sendMessage st message senderName none t1 true
        failMsg).state.seenMessages
      (messageHash (sendMessage st message senderName none t1 true
        failMsg).state.localEndpointId message) = true := by
    unfold containsKey
    rw [h1]
    rfl
  rw [recv_dup _ e2 _ t2 _ n2 hs2 message hsp hseen]
  exact ⟨herr, h1, rfl, rfl⟩

theorem C10_no_peers_cache_persists_witness :
    (sendMessage ⟨[], [], [76]⟩ [77] [66] none 0 true []).errorEvent
      = some noPeersMsg
    ∧ lookupTs (sendMessage ⟨[], [], [76]⟩ [77] [66] none 0 true
        []).state.seenMessages
        (messageHash (sendMessage ⟨[], [], [76]⟩ [77] [66] none 0 true
          []).state.localEndpointId [77]) = some 0
    ∧ (onPayloadReceived (sendMessage ⟨[], [], [76]⟩ [77] [66] none 0 true
        []).state [69]
        (mkMessage (sendMessage ⟨[], [], [76]⟩ [77] [66] none 0 true
          []).state.localEndpointId [66] [48] [77]) 50).delivered = []
    ∧ (onPayloadReceived (sendMessage ⟨[], [], [76]⟩ [77] [66] none 0 true
        []).state [69]
        (mkMessage (sendMessage ⟨[], [], [76]⟩ [77] [66] none 0 true
          []).state.localEndpointId [66] [48] [77]) 50).sent = [] :=
  C10_no_peers_cache_persists ⟨[], [], [76]⟩ [77] [66] [] 0 rfl
    [69] [66] [48] 50 (by decide) (by decide) (by decide) (by decide)
